import Mathlib

/-!
Verification of the mowan-game-lite game engine (`backend/game_logic.py` and
the action-resolution branch of `backend/app.py`), shallowly embedded in Lean.

Pieces in the public area are `(number, player_id)` pairs; boards are
association lists from cell-id strings to optional digits, mirroring the
Python dicts (insertion order preserved; a key is looked up by its first
occurrence, and keys are unique in every dict the code builds); the
settlement cascade is a recursive function terminating on the length of the
working set. Python's stable `list.sort(key=...)` is modelled by a stable
insertion sort over the same key, which produces the identical list.
-/

/-- A piece in the public area: `{'number': int, 'player_id': int}`. -/
structure Piece where
  number : Nat
  player_id : Nat
deriving DecidableEq, Repr

/-- `GameLogic.duel(num1, player1, num2, player2)` from `game_logic.py`:
returns `(winner_player_id or None, eliminated_player_ids)`. -/
def duel (num1 player1 num2 player2 : Nat) : Option Nat × List Nat :=
  if num1 = num2 then
    (none, [player1, player2])
  else if (num1 = 0 ∧ (num2 = 6 ∨ num2 = 9)) ∨ (num2 = 0 ∧ (num1 = 6 ∨ num1 = 9)) then
    (none, [player1, player2])
  else if num1 = 8 ∧ num2 = 0 then
    (some player1, [player2])
  else if num2 = 8 ∧ num1 = 0 then
    (some player2, [player1])
  else if num1 < num2 then
    (some player1, [player2])
  else
    (some player2, [player1])

/-- The duel outcome as the specification states it (§4.2 rule precedence),
written from the spec's words, to be compared with `duel` from the source. -/
def specDuelResolve (a pa b pb : Nat) : Option Nat × List Nat :=
  if a = b then
    (none, [pa, pb])
  else if (a = 0 ∧ (b = 6 ∨ b = 9)) ∨ (b = 0 ∧ (a = 6 ∨ a = 9)) then
    (none, [pa, pb])
  else if a = 8 ∧ b = 0 then
    (some pa, [pb])
  else if b = 8 ∧ a = 0 then
    (some pb, [pa])
  else if a < b then
    (some pa, [pb])
  else
    (some pb, [pa])

/-- `order_map.get(player_id, 999)` in `resolve_public_area`: the rank of a
player in the turn order (dict comprehension, so the last index wins on a
duplicated id), defaulting to `999` for a player absent from the order. -/
def orderRank (turnOrder : List Nat) (pid : Nat) : Nat :=
  match (turnOrder.enum.filter (fun e => e.2 = pid)).getLast? with
  | some e => e.1
  | none => 999

/-- Stable insertion of a piece into a rank-sorted list: the new piece goes
before the first existing piece of rank not below its own. -/
def insertByRank (rank : Piece → Nat) (p : Piece) : List Piece → List Piece
  | [] => [p]
  | q :: qs => if rank q < rank p then q :: insertByRank rank p qs else p :: q :: qs

/-- Stable sort by rank, modelling Python's stable `list.sort(key=...)` in
`resolve_public_area` (any stable sort by the same key yields the same list). -/
def sortByRank (rank : Piece → Nat) : List Piece → List Piece
  | [] => []
  | p :: ps => insertByRank rank p (sortByRank rank ps)

/-- `set(p['player_id'] for p in area)` as a deduplicated list of owners. -/
def ownersOf (area : List Piece) : List Nat :=
  (area.map Piece.player_id).dedup

/-- `# If there's a winner, they stay in public area` — the (zero- or
one-element) list of pieces re-entering the working set after a duel. -/
def winnerPieces (p1 p2 : Piece) (w : Option Nat) : List Piece :=
  match w with
  | some wid => [if wid = p1.player_id then p1 else p2]
  | none => []

/-- The eliminated `(number, player_id)` records appended after one duel:
`p1['number'] if eid == p1['player_id'] else p2['number']`. -/
def elimRecords (p1 p2 : Piece) (elimIds : List Nat) : List Piece :=
  elimIds.map (fun eid =>
    { number := if eid = p1.player_id then p1.number else p2.number,
      player_id := eid })

/-- The `while len(current_area) >= 2` loop of `resolve_public_area`:
sort the working set by turn-order rank, duel the first two pieces
(`current_area[0]` and `current_area[1]`), remove them
(`current_area[2:]`), record eliminations, re-add the winner's piece,
and stop when fewer than two pieces or fewer than two distinct owners
remain. Also returns the trace of `duel` calls (the two pieces passed
to each call). -/
def settleLoop (turnOrder : List Nat) (current : List Piece) :
    List Piece × List Piece × List (Piece × Piece) :=
  if h : current.length < 2 then
    (current, [], [])
  else
    let sorted := sortByRank (fun p => orderRank turnOrder p.player_id) current
    let p1 := sorted.headD ⟨0, 0⟩
    let p2 := sorted.tail.headD ⟨0, 0⟩
    let rest := sorted.drop 2
    let d := duel p1.number p1.player_id p2.number p2.player_id
    let newArea := rest ++ winnerPieces p1 p2 d.1
    if newArea.length < 2 ∨ (ownersOf newArea).length < 2 then
      (newArea, elimRecords p1 p2 d.2, [(p1, p2)])
    else
      let r := settleLoop turnOrder newArea
      (r.1, elimRecords p1 p2 d.2 ++ r.2.1, (p1, p2) :: r.2.2)
termination_by current.length
decreasing_by
  have hins : ∀ (rank : Piece → Nat) (p : Piece) (l : List Piece),
      (insertByRank rank p l).length = l.length + 1 := by
    intro rank p l
    induction l with
    | nil => rfl
    | cons q qs ih =>
      unfold insertByRank
      split <;> simp [ih]
  have hsortAll : ∀ (rank : Piece → Nat) (l : List Piece),
      (sortByRank rank l).length = l.length := by
    intro rank l
    induction l with
    | nil => rfl
    | cons p ps ih =>
      unfold sortByRank
      rw [hins, ih]
      simp
  have hsort := hsortAll (fun p => orderRank turnOrder p.player_id) current
  have hw : (winnerPieces
      ((sortByRank (fun p => orderRank turnOrder p.player_id) current).headD ⟨0, 0⟩)
      ((sortByRank (fun p => orderRank turnOrder p.player_id) current).tail.headD ⟨0, 0⟩)
      (duel
        ((sortByRank (fun p => orderRank turnOrder p.player_id) current).headD ⟨0, 0⟩).number
        ((sortByRank (fun p => orderRank turnOrder p.player_id) current).headD ⟨0, 0⟩).player_id
        ((sortByRank (fun p => orderRank turnOrder p.player_id) current).tail.headD ⟨0, 0⟩).number
        ((sortByRank (fun p =>
          orderRank turnOrder p.player_id) current).tail.headD ⟨0, 0⟩).player_id).1).length
      ≤ 1 := by
    rcases (duel _ _ _ _).1 with _ | wid <;> simp [winnerPieces]
  simp only [List.length_append, List.length_drop]
  omega

/-- `GameLogic.resolve_public_area(public_area, turn_order)` from
`game_logic.py`: returns `(updated_public_area, eliminated, extra_action_player)`. -/
def resolve_public_area (public_area : List Piece) (turn_order : List Nat) :
    List Piece × List Piece × Option Nat :=
  match public_area with
  | [] => ([], [], none)
  | [p] => ([], [], some p.player_id)
  | p1 :: p2 :: rest =>
    let r := settleLoop turn_order (p1 :: p2 :: rest)
    (r.1, r.2.1, none)

/-- The pairs of pieces handed to `duel` during a run of
`resolve_public_area` (the cascade loop is the only caller of `duel`). -/
def duelCalls (public_area : List Piece) (turn_order : List Nat) :
    List (Piece × Piece) :=
  match public_area with
  | [] => []
  | [_] => []
  | p1 :: p2 :: rest => (settleLoop turn_order (p1 :: p2 :: rest)).2.2

/-- `GameLogic.COL_NAMES`. -/
def COL_NAMES : List Char := ['A', 'B', 'C', 'D', 'E', 'F']

/-- A player board: the Python dict from cell-id strings to optional digits,
kept in insertion order. -/
abbrev Board := List (String × Option Nat)

/-- `GameLogic.get_cell_position(cell_id)`: parse `'1A'` to `(row, col)`,
`int(cell_id[0]) - 1` and `COL_NAMES.index(cell_id[1])`. -/
def get_cell_position (cell_id : String) : Nat × Nat :=
  match cell_id.data with
  | r :: c :: _ => (r.toNat - '0'.toNat - 1, COL_NAMES.indexOf c)
  | _ => (0, 0)

/-- `GameLogic.get_cell_id(row, col)`: `f"{row + 1}{COL_NAMES[col]}"`. -/
def get_cell_id (row col : Nat) : String :=
  Nat.repr (row + 1) ++ String.mk [COL_NAMES.getD col 'A']

/-- `GameLogic.get_front_cell(cell_id)`: the cell one row forward, or
`'public'` from row 1. -/
def get_front_cell (cell_id : String) : String :=
  let rc := get_cell_position cell_id
  if rc.1 = 0 then "public" else get_cell_id (rc.1 - 1) rc.2

/-- Dict access used by the move check: `cell_id in board and
board[cell_id] is not None` holds iff this is not `none`. -/
def getCell (board : Board) (cell_id : String) : Option Nat :=
  match board.find? (fun e => e.1 = cell_id) with
  | some e => e.2
  | none => none

/-- `GameLogic.can_move_forward(board, cell_id)`: `(False, error-message)`
or `(True, destination)`. -/
def can_move_forward (board : Board) (cell_id : String) : Bool × String :=
  if getCell board cell_id = none then
    (false, "No piece at this position")
  else
    let front := get_front_cell cell_id
    if front = "public" then
      (true, front)
    else if getCell board front ≠ none then
      (false, "Target cell is occupied")
    else
      (true, front)

/-- `sum(1 for v in board.values() if v is not None)` in `check_winner`. -/
def boardCount (board : Board) : Nat :=
  board.countP (fun e => e.2 ≠ none)

/-- `GameLogic.check_winner(players_data)`: the sole active player, or
`None`. The dict of players is kept as an ordered association list. -/
def check_winner (players_data : List (Nat × Board)) : Option Nat :=
  match (players_data.filter (fun pd => 0 < boardCount pd.2)).map Prod.fst with
  | [w] => some w
  | _ => none

/-- A displayed cell in a board summary: a revealed digit, the string
`'occupied'`, or `None`. -/
inductive CellView where
  | num : Nat → CellView
  | occupiedMark : CellView
  | empty : CellView
deriving DecidableEq, Repr

/-- `GameLogic.get_board_summary(board, reveal_all)`: the full board when
`reveal_all`, else only which cells are occupied. -/
def get_board_summary (board : Board) (reveal_all : Bool) :
    List (String × CellView) :=
  if reveal_all then
    board.map (fun e => (e.1,
      match e.2 with
      | some n => CellView.num n
      | none => CellView.empty))
  else
    board.map (fun e => (e.1,
      if e.2 ≠ none then CellView.occupiedMark else CellView.empty))

/-- A player's durable record in `app.py`: user id, board, eliminated list. -/
structure PlayerRec where
  user_id : Nat
  board : Board
  eliminated : List Nat
deriving Repr

/-- `next((p for p in players if p['user_id'] == pid), None)` followed by an
update of that player's record. -/
def updateFirst (pid : Nat) (f : PlayerRec → PlayerRec) :
    List PlayerRec → List PlayerRec
  | [] => []
  | p :: ps => if p.user_id = pid then f p :: ps else p :: updateFirst pid f ps

/-- `db.update_player_board(room_id, user_id, board, eliminated)`: one SQL
UPDATE setting both the board and the eliminated list of the matching
player row (a no-op when no row matches). -/
def dbWrite (db : List PlayerRec) (pid : Nat) (board : Board)
    (eliminated : List Nat) : List PlayerRec :=
  updateFirst pid (fun p => { p with board := board, eliminated := eliminated }) db

/-- The `for e in eliminated` loop of `game_action`: each iteration looks
the player up in the stale `players` snapshot (read once at the top of
`game_action` and never refreshed), appends one number to the snapshot's
eliminated list, and writes the snapshot's board plus that list to the
database — so a later write for the same player clobbers an earlier one
from the same settlement. -/
def applyEliminationsDb (snapshot db : List PlayerRec) (eliminated : List Piece) :
    List PlayerRec :=
  eliminated.foldl (fun dbAcc e =>
    match snapshot.find? (fun p => p.user_id = e.player_id) with
    | some e_player => dbWrite dbAcc e.player_id e_player.board
        (e_player.eliminated ++ [e.number])
    | none => dbAcc) db

/-- Python dict assignment `board[cell_id] = v`: replace the key when
present, else append it. -/
def setCell (board : Board) (cell_id : String) (v : Option Nat) : Board :=
  if board.any (fun e => e.1 = cell_id) then
    board.map (fun e => if e.1 = cell_id then (e.1, v) else e)
  else
    board ++ [(cell_id, v)]

/-- The leftover-return loop body of `game_action`: place a number into the
first empty back-row (row 3) cell in column order A→F, silently dropping it
when none is empty. -/
def placeBackRow (board : Board) (num : Nat) : Board :=
  match COL_NAMES.find? (fun c => getCell board (String.mk ['3', c]) = none) with
  | some c => setCell board (String.mk ['3', c]) (some num)
  | none => board

/-- The `for piece in public_area` loop of `game_action` after a
round-boundary settlement: each iteration recomputes the first empty
back-row cell from the stale snapshot board and writes that board together
with the stale eliminated list to the database — successive leftover pieces
of one owner are placed into the same cell (the later write clobbers the
earlier), and the stale eliminated list undoes this call's elimination
appends for that owner. -/
def returnLeftoversDb (snapshot db : List PlayerRec) (leftover : List Piece) :
    List PlayerRec :=
  leftover.foldl (fun dbAcc piece =>
    match snapshot.find? (fun p => p.user_id = piece.player_id) with
    | some owner => dbWrite dbAcc piece.player_id
        (placeBackRow owner.board piece.number) owner.eliminated
    | none => dbAcc) db

/-- The outcome of the turn-advancement tail of `game_action`. -/
structure StepResult where
  next_turn : Nat
  next_round : Nat
  public_area : List Piece
  players : List PlayerRec
  winner : Option Nat
deriving Repr

/-- The tail of `game_action` in `app.py` after the per-action branch:
`next_turn = (current_turn + 1) % len(turn_order)`; when a full round
elapsed (`next_turn == 0`), increment the round, settle the public area,
run the two stale-snapshot write-back loops against the database state,
clear the public area, and check for a winner on the re-read database
state. `players` is the snapshot read once at the top of `game_action`;
`db_players` is the database state at the moment this tail runs (the two
can already differ on the acting player's board). -/
def gameActionAdvance (current_turn current_round : Nat) (turn_order : List Nat)
    (public_area : List Piece) (players db_players : List PlayerRec) : StepResult :=
  let next_turn := (current_turn + 1) % turn_order.length
  if next_turn = 0 then
    let next_round := current_round + 1
    let r := resolve_public_area public_area turn_order
    let db1 := applyEliminationsDb players db_players r.2.1
    let db2 := returnLeftoversDb players db1 r.1
    let winner := check_winner (db2.map (fun p => (p.user_id, p.board)))
    { next_turn := next_turn, next_round := next_round, public_area := [],
      players := db2, winner := winner }
  else
    { next_turn := next_turn, next_round := current_round,
      public_area := public_area, players := db_players, winner := none }

theorem insertByRank_length (rank : Piece → Nat) (p : Piece) (l : List Piece) :
    (insertByRank rank p l).length = l.length + 1 := by
  induction l with
  | nil => rfl
  | cons q qs ih =>
    unfold insertByRank
    split <;> simp [ih]

theorem sortByRank_length (rank : Piece → Nat) (l : List Piece) :
    (sortByRank rank l).length = l.length := by
  induction l with
  | nil => rfl
  | cons p ps ih =>
    unfold sortByRank
    rw [insertByRank_length, ih]
    simp

theorem insertByRank_perm (rank : Piece → Nat) (p : Piece) (l : List Piece) :
    (insertByRank rank p l).Perm (p :: l) := by
  induction l with
  | nil => simp [insertByRank]
  | cons q qs ih =>
    unfold insertByRank
    split
    · exact ((ih.cons q).trans (List.Perm.swap p q qs))
    · exact List.Perm.refl _

theorem sortByRank_perm (rank : Piece → Nat) (l : List Piece) :
    (sortByRank rank l).Perm l := by
  induction l with
  | nil => simp [sortByRank]
  | cons p ps ih =>
    exact (insertByRank_perm rank p (sortByRank rank ps)).trans (ih.cons p)

theorem mem_length_lt_two {α : Type} {l : List α} (h : l.length < 2) :
    ∀ p ∈ l, ∀ q ∈ l, p = q := by
  rcases l with _ | ⟨x, _ | ⟨y, t⟩⟩
  · intro p hp; simp at hp
  · intro p hp q hq; simp at hp hq; rw [hp, hq]
  · simp at h; omega

theorem mem_dedup_lt_two {α β : Type} [DecidableEq β] (f : α → β) (l : List α)
    (h : ((l.map f).dedup).length < 2) :
    ∀ p ∈ l, ∀ q ∈ l, f p = f q := by
  intro p hp q hq
  have hp' : f p ∈ (l.map f).dedup := List.mem_dedup.2 (List.mem_map_of_mem f hp)
  have hq' : f q ∈ (l.map f).dedup := List.mem_dedup.2 (List.mem_map_of_mem f hq)
  rcases hd : (l.map f).dedup with _ | ⟨x, _ | ⟨y, t⟩⟩
  · rw [hd] at hp'; simp at hp'
  · rw [hd] at hp' hq'; simp at hp' hq'; rw [hp', hq']
  · rw [hd] at h; simp at h; omega

theorem settleLoop_single_owner (turnOrder : List Nat) (current : List Piece) :
    ∀ p ∈ (settleLoop turnOrder current).1, ∀ q ∈ (settleLoop turnOrder current).1,
      p.player_id = q.player_id := by
  induction current using settleLoop.induct with
  | turnOrder => exact turnOrder
  | case1 cur h1 =>
    rw [settleLoop, dif_pos h1]
    intro p hp q hq
    exact congrArg Piece.player_id (mem_length_lt_two h1 p hp q hq)
  | case2 cur h1 sorted p1 p2 rest d newArea h2 =>
    rw [settleLoop, dif_neg h1]
    simp only []
    rw [if_pos h2]
    rcases h2 with h2 | h2
    · intro p hp q hq
      exact congrArg Piece.player_id (mem_length_lt_two h2 p hp q hq)
    · exact mem_dedup_lt_two Piece.player_id _ h2
  | case3 cur h1 sorted p1 p2 rest d newArea h2 ih =>
    rw [settleLoop, dif_neg h1]
    simp only []
    rw [if_neg h2]
    exact ih

theorem two_le_eq_head_cons (l : List Piece) (h : 2 ≤ l.length) :
    l = l.headD ⟨0, 0⟩ :: l.tail.headD ⟨0, 0⟩ :: l.drop 2 := by
  rcases l with _ | ⟨x, _ | ⟨y, t⟩⟩
  · simp at h
  · simp at h
  · rfl

theorem nodup_head_ne (p1 p2 : Piece) (rest : List Piece)
    (hnd : ((p1 :: p2 :: rest).map Piece.player_id).Nodup) :
    p1.player_id ≠ p2.player_id := by
  simp [List.nodup_cons] at hnd
  exact hnd.1.1

theorem nodup_newArea (p1 p2 : Piece) (rest : List Piece) (w : Option Nat)
    (hnd : ((p1 :: p2 :: rest).map Piece.player_id).Nodup) :
    ((rest ++ winnerPieces p1 p2 w).map Piece.player_id).Nodup := by
  simp only [List.map_cons, List.nodup_cons, List.mem_cons, List.mem_map] at hnd
  rw [List.map_append]
  rcases w with _ | wid
  · simpa [winnerPieces] using hnd.2.2
  · rw [List.nodup_append]
    refine ⟨hnd.2.2, by simp [winnerPieces], ?_⟩
    intro a ha hb
    simp only [winnerPieces, List.map_cons, List.map_nil, List.mem_singleton] at hb
    subst hb
    by_cases hw : wid = p1.player_id
    · simp only [if_pos hw] at ha
      rcases List.mem_map.1 ha with ⟨b, hb1, hb2⟩
      exact hnd.1 (Or.inr ⟨b, hb1, hb2⟩)
    · simp only [if_neg hw] at ha
      rcases List.mem_map.1 ha with ⟨b, hb1, hb2⟩
      exact hnd.2.1 ⟨b, hb1, hb2⟩

theorem settleLoop_cross_owner (turnOrder : List Nat) (current : List Piece) :
    (current.map Piece.player_id).Nodup →
    ∀ pr ∈ (settleLoop turnOrder current).2.2, pr.1.player_id ≠ pr.2.player_id := by
  induction current using settleLoop.induct with
  | turnOrder => exact turnOrder
  | case1 cur h1 =>
    intro _ pr hpr
    rw [settleLoop, dif_pos h1] at hpr
    simp at hpr
  | case2 cur h1 sorted p1 p2 rest d newArea h2 =>
    intro hnd pr hpr
    rw [settleLoop, dif_neg h1] at hpr
    simp only [] at hpr
    rw [if_pos h2] at hpr
    have hlen : 2 ≤ sorted.length := by
      have h := sortByRank_length (fun p => orderRank turnOrder p.player_id) cur
      show 2 ≤ (sortByRank (fun p => orderRank turnOrder p.player_id) cur).length
      omega
    have hnds : (sorted.map Piece.player_id).Nodup :=
      ((sortByRank_perm (fun p => orderRank turnOrder p.player_id) cur).map
        Piece.player_id).nodup_iff.mpr hnd
    have hsplit : sorted = p1 :: p2 :: rest := two_le_eq_head_cons sorted hlen
    rw [hsplit] at hnds
    have hkey : p1.player_id ≠ p2.player_id := nodup_head_ne p1 p2 rest hnds
    simp only [List.mem_singleton] at hpr
    subst hpr
    exact hkey
  | case3 cur h1 sorted p1 p2 rest d newArea h2 ih =>
    intro hnd pr hpr
    rw [settleLoop, dif_neg h1] at hpr
    simp only [] at hpr
    rw [if_neg h2] at hpr
    have hlen : 2 ≤ sorted.length := by
      have h := sortByRank_length (fun p => orderRank turnOrder p.player_id) cur
      show 2 ≤ (sortByRank (fun p => orderRank turnOrder p.player_id) cur).length
      omega
    have hnds : (sorted.map Piece.player_id).Nodup :=
      ((sortByRank_perm (fun p => orderRank turnOrder p.player_id) cur).map
        Piece.player_id).nodup_iff.mpr hnd
    have hsplit : sorted = p1 :: p2 :: rest := two_le_eq_head_cons sorted hlen
    rw [hsplit] at hnds
    rcases List.mem_cons.1 hpr with hpr | hpr
    · subst hpr
      exact nodup_head_ne p1 p2 rest hnds
    · exact ih (nodup_newArea p1 p2 rest d.1 hnds) pr hpr

/-- C1: For every pair of digits `a, b ≤ 9` and distinct owners `pa ≠ pb`,
`duel` is total and matches the spec's §4.2 precedence rules (equal digits:
both eliminated; 0 against 6 or 9: both eliminated; 8 against 0: the
8-holder wins; otherwise the strictly smaller digit wins), and exactly one
of {first wins, second wins, both eliminated} holds. -/
theorem duel_matches_spec_and_total (a b pa pb : Nat) (ha : a ≤ 9) (hb : b ≤ 9)
    (hp : pa ≠ pb) :
    duel a pa b pb = specDuelResolve a pa b pb ∧
    ((duel a pa b pb = (some pa, [pb]) ∧ ¬ duel a pa b pb = (some pb, [pa]) ∧
        ¬ duel a pa b pb = (none, [pa, pb])) ∨
     (duel a pa b pb = (some pb, [pa]) ∧ ¬ duel a pa b pb = (some pa, [pb]) ∧
        ¬ duel a pa b pb = (none, [pa, pb])) ∨
     (duel a pa b pb = (none, [pa, pb]) ∧ ¬ duel a pa b pb = (some pa, [pb]) ∧
        ¬ duel a pa b pb = (some pb, [pa]))) := by
  constructor
  · unfold duel specDuelResolve
    rfl
  · unfold duel
    split_ifs with h1 h2 h3 h4 h5 <;> simp_all

/-- Witness for C1 at `a = 0`, `b = 5`, `pa = 1`, `pb = 2` (digit 0 beats 5). -/
theorem duel_matches_spec_and_total_witness :
    duel 0 1 5 2 = specDuelResolve 0 1 5 2 ∧
    ((duel 0 1 5 2 = (some 1, [2]) ∧ ¬ duel 0 1 5 2 = (some 2, [1]) ∧
        ¬ duel 0 1 5 2 = (none, [1, 2])) ∨
     (duel 0 1 5 2 = (some 2, [1]) ∧ ¬ duel 0 1 5 2 = (some 1, [2]) ∧
        ¬ duel 0 1 5 2 = (none, [1, 2])) ∨
     (duel 0 1 5 2 = (none, [1, 2]) ∧ ¬ duel 0 1 5 2 = (some 1, [2]) ∧
        ¬ duel 0 1 5 2 = (some 2, [1]))) :=
  duel_matches_spec_and_total 0 5 1 2 (by decide) (by decide) (by decide)

/-- C2: For every public area holding pieces of at least two distinct owners,
the settlement cascade terminates (`resolve_public_area` is a total function,
recursing on the strictly decreasing working-set length) and every piece of
the leftover public area it returns belongs to a single owner. -/
theorem resolve_public_area_single_owner (public_area : List Piece)
    (turn_order : List Nat) (h : 2 ≤ (ownersOf public_area).length) :
    ∀ p ∈ (resolve_public_area public_area turn_order).1,
      ∀ q ∈ (resolve_public_area public_area turn_order).1,
        p.player_id = q.player_id := by
  rcases public_area with _ | ⟨p1, _ | ⟨p2, rest⟩⟩
  · intro p hp; simp [resolve_public_area] at hp
  · intro p hp; simp [resolve_public_area] at hp
  · exact settleLoop_single_owner turn_order (p1 :: p2 :: rest)

/-- Witness for C2 on the public area `[{5, owner 1}, {3, owner 2}]`. -/
theorem resolve_public_area_single_owner_witness :
    2 ≤ (ownersOf [⟨5, 1⟩, ⟨3, 2⟩]).length ∧
    ∀ p ∈ (resolve_public_area [⟨5, 1⟩, ⟨3, 2⟩] [1, 2]).1,
      ∀ q ∈ (resolve_public_area [⟨5, 1⟩, ⟨3, 2⟩] [1, 2]).1,
        p.player_id = q.player_id :=
  ⟨by decide, resolve_public_area_single_owner [⟨5, 1⟩, ⟨3, 2⟩] [1, 2] (by decide)⟩

/-- C3 counterexample: on public area `[{5, owner 1}, {3, owner 2}]` with
turn order `[1, 2]`, the leftover public area is NOT empty (the claim says
it is): the winning piece `{3, owner 2}` stays in the public area. -/
theorem resolve_scenarioB_leftover_nonempty :
    (resolve_public_area [⟨5, 1⟩, ⟨3, 2⟩] [1, 2]).1 ≠ [] := by
  rw [resolve_public_area, settleLoop, dif_neg (by decide)]
  simp only []
  rw [if_pos (by decide)]
  decide

/-- C3 amended: on public area `[{5, owner 1}, {3, owner 2}]` with turn
order `[1, 2]`, owner 1's piece is paired first by rank (the single duel is
`({5, owner 1}, {3, owner 2})`), the duel is decided by the digit rule
(3 < 5, so owner 2's piece wins), the eliminations are exactly
`[{5, owner 1}]`, the leftover public area is `[{3, owner 2}]` (the winner
stays), and no sole-survivor flag is reported. -/
theorem resolve_scenarioB_amended :
    resolve_public_area [⟨5, 1⟩, ⟨3, 2⟩] [1, 2] = ([⟨3, 2⟩], [⟨5, 1⟩], none) ∧
    duelCalls [⟨5, 1⟩, ⟨3, 2⟩] [1, 2] = [(⟨5, 1⟩, ⟨3, 2⟩)] := by
  constructor
  · rw [resolve_public_area, settleLoop, dif_neg (by decide)]
    simp only []
    rw [if_pos (by decide)]
    decide
  · rw [duelCalls, settleLoop, dif_neg (by decide)]
    simp only []
    rw [if_pos (by decide)]
    decide

/-- C4 counterexample: on the single-piece public area `[{5, owner 1}]`,
`resolve_public_area` returns `([], [], owner 1)` — the piece is NOT
present in the returned leftover public area (the claim says it is). -/
theorem resolve_single_piece_dropped :
    resolve_public_area [⟨5, 1⟩] [1, 2] = ([], [], some 1) ∧
    (⟨5, 1⟩ : Piece) ∉ (resolve_public_area [⟨5, 1⟩] [1, 2]).1 := by
  decide

/-- C4 amended: on a public area holding exactly one piece,
`resolve_public_area` returns an empty leftover public area (the piece is
removed and not returned), no eliminations, and the piece's owner as the
sole-survivor / extra-action candidate. -/
theorem resolve_single_piece (p : Piece) (turn_order : List Nat) :
    resolve_public_area [p] turn_order = ([], [], some p.player_id) := rfl

/-- C5 counterexample: on public area
`[{5, owner 1}, {3, owner 1}, {7, owner 2}]` with turn order `[1, 2]`,
the first duel invoked by `resolve_public_area` is between owner 1's two
pieces — two pieces of the SAME owner. -/
theorem duelCalls_same_owner_pair :
    ((⟨5, 1⟩, ⟨3, 1⟩) : Piece × Piece) ∈ duelCalls [⟨5, 1⟩, ⟨3, 1⟩, ⟨7, 2⟩] [1, 2] ∧
    (⟨5, 1⟩ : Piece).player_id = (⟨3, 1⟩ : Piece).player_id := by
  constructor
  · rw [duelCalls, settleLoop]
    rw [dif_neg (by decide)]
    simp only []
    split
    · exact List.mem_cons_self _ _
    · exact List.mem_cons_self _ _
  · rfl

/-- C5 amended: when every owner contributes at most one piece to the input
public area (owners pairwise distinct), every `duel` that
`resolve_public_area` invokes is between two pieces of different owners. In
general the loop pairs the two pieces lowest in turn-order rank, which may
share an owner. -/
theorem duelCalls_cross_owner (public_area : List Piece) (turn_order : List Nat)
    (h : (public_area.map Piece.player_id).Nodup) :
    ∀ pr ∈ duelCalls public_area turn_order, pr.1.player_id ≠ pr.2.player_id := by
  rcases public_area with _ | ⟨p1, _ | ⟨p2, rest⟩⟩
  · intro pr hpr; simp [duelCalls] at hpr
  · intro pr hpr; simp [duelCalls] at hpr
  · exact settleLoop_cross_owner turn_order (p1 :: p2 :: rest) h

/-- Witness for C5 amended on the public area `[{5, owner 1}, {3, owner 2}]`. -/
theorem duelCalls_cross_owner_witness :
    (([⟨5, 1⟩, ⟨3, 2⟩] : List Piece).map Piece.player_id).Nodup ∧
    ∀ pr ∈ duelCalls [⟨5, 1⟩, ⟨3, 2⟩] [1, 2], pr.1.player_id ≠ pr.2.player_id :=
  ⟨by decide, duelCalls_cross_owner [⟨5, 1⟩, ⟨3, 2⟩] [1, 2] (by decide)⟩

/-- C10: Whenever the input public area holds two or more pieces,
`resolve_public_area` reports no sole-survivor / extra-action player, even
when the cascade leaves exactly one piece in the working set. -/
theorem resolve_public_area_no_extra (public_area : List Piece)
    (turn_order : List Nat) (h : 2 ≤ public_area.length) :
    (resolve_public_area public_area turn_order).2.2 = none := by
  rcases public_area with _ | ⟨p1, _ | ⟨p2, rest⟩⟩
  · simp at h
  · simp at h
  · rfl

/-- Witness for C10 on the public area `[{5, owner 1}, {3, owner 2}]`
(whose cascade ends with exactly one leftover piece). -/
theorem resolve_public_area_no_extra_witness :
    (resolve_public_area [⟨5, 1⟩, ⟨3, 2⟩] [1, 2]).2.2 = none :=
  resolve_public_area_no_extra [⟨5, 1⟩, ⟨3, 2⟩] [1, 2] (by decide)

/-- C6: For every action applied while playing, the turn-advancement tail of
`game_action` computes the next turn index as `(current_turn + 1) mod
player_count`, a pure function of the current turn and the player count,
and increments the round counter exactly when that next index is 0. -/
theorem gameActionAdvance_turn (current_turn current_round : Nat)
    (turn_order : List Nat) (public_area : List Piece)
    (players db_players : List PlayerRec) (h : turn_order ≠ []) :
    (gameActionAdvance current_turn current_round turn_order public_area
        players db_players).next_turn = (current_turn + 1) % turn_order.length ∧
    ((gameActionAdvance current_turn current_round turn_order public_area
        players db_players).next_round = current_round + 1
      ↔ (current_turn + 1) % turn_order.length = 0) := by
  unfold gameActionAdvance
  by_cases hz : (current_turn + 1) % turn_order.length = 0 <;> simp [hz]

/-- Witness for C6 in a two-player room at turn 0 of round 1. -/
theorem gameActionAdvance_turn_witness :
    (gameActionAdvance 0 1 [1, 2] [] [] []).next_turn = (0 + 1) % [1, 2].length ∧
    ((gameActionAdvance 0 1 [1, 2] [] [] []).next_round = 1 + 1
      ↔ (0 + 1) % [1, 2].length = 0) :=
  gameActionAdvance_turn 0 1 [1, 2] [] [] [] (by decide)

/-- C7: `check_winner` reports a winner iff exactly one player is active —
a player being active iff their board has at least one occupied cell — and
the reported winner is that single active player; with zero or two-or-more
active players it reports none. -/
theorem check_winner_spec (players_data : List (Nat × Board)) :
    (∀ b : Board, (0 < boardCount b ↔ ∃ e ∈ b, e.2 ≠ none)) ∧
    (check_winner players_data = none ↔
      (players_data.filter (fun pd => 0 < boardCount pd.2)).length ≠ 1) ∧
    (∀ w, check_winner players_data = some w ↔
      (players_data.filter (fun pd => 0 < boardCount pd.2)).map Prod.fst = [w]) := by
  have hl : (players_data.filter (fun pd => 0 < boardCount pd.2)).length
      = ((players_data.filter (fun pd => 0 < boardCount pd.2)).map Prod.fst).length := by
    rw [List.length_map]
  refine ⟨?_, ?_, ?_⟩
  · intro b
    constructor
    · intro hb
      rcases List.countP_pos_iff.mp hb with ⟨e, he, hne⟩
      exact ⟨e, he, by simpa using hne⟩
    · intro ⟨e, he, hne⟩
      exact List.countP_pos_iff.mpr ⟨e, he, by simpa using hne⟩
  · rcases hm : (players_data.filter (fun pd => 0 < boardCount pd.2)).map Prod.fst
      with _ | ⟨w1, _ | ⟨w2, t⟩⟩ <;>
      rw [hm] at hl <;> unfold check_winner <;> rw [hm] <;> simp [hl]
  · intro w
    rcases hm : (players_data.filter (fun pd => 0 < boardCount pd.2)).map Prod.fst
      with _ | ⟨w1, _ | ⟨w2, t⟩⟩ <;> unfold check_winner <;> rw [hm] <;> simp

/-- Row-1 cells advance to the `'public'` sentinel. -/
theorem get_front_cell_row1 (c : Char) (hc : c ∈ COL_NAMES) :
    get_front_cell (String.mk ['1', c]) = "public" := by
  simp only [COL_NAMES, List.mem_cons, List.not_mem_nil, or_false] at hc
  rcases hc with rfl | rfl | rfl | rfl | rfl | rfl <;> decide

/-- Row-2 and row-3 cells advance one row forward in the same column. -/
theorem get_front_cell_row23 (r c : Char) (hr : r = '2' ∨ r = '3')
    (hc : c ∈ COL_NAMES) :
    get_front_cell (String.mk [r, c]) = String.mk [Char.ofNat (r.toNat - 1), c] := by
  simp only [COL_NAMES, List.mem_cons, List.not_mem_nil, or_false] at hc
  rcases hr with rfl | rfl <;> rcases hc with rfl | rfl | rfl | rfl | rfl | rfl <;> decide

theorem front_cell_ne_public (r c : Char) (hr : r = '2' ∨ r = '3')
    (hc : c ∈ COL_NAMES) :
    String.mk [Char.ofNat (r.toNat - 1), c] ≠ "public" := by
  simp only [COL_NAMES, List.mem_cons, List.not_mem_nil, or_false] at hc
  rcases hr with rfl | rfl <;> rcases hc with rfl | rfl | rfl | rfl | rfl | rfl <;> decide

/-- C8: For every board and valid cell id, `can_move_forward` fails with the
empty-cell error exactly when no piece occupies the cell; from an occupied
row-1 cell (destination `'public'`) the move is always permitted; otherwise
the destination is the cell one row forward in the same column, the move
fails with the blocked error exactly when that destination is occupied, and
is permitted with the destination returned otherwise. -/
theorem can_move_forward_spec (board : Board) (r c : Char)
    (hr : r = '1' ∨ r = '2' ∨ r = '3') (hc : c ∈ COL_NAMES) :
    (can_move_forward board (String.mk [r, c]) = (false, "No piece at this position")
      ↔ getCell board (String.mk [r, c]) = none)
    ∧ (getCell board (String.mk [r, c]) ≠ none → r = '1' →
        can_move_forward board (String.mk [r, c]) = (true, "public"))
    ∧ (getCell board (String.mk [r, c]) ≠ none → (r = '2' ∨ r = '3') →
        get_front_cell (String.mk [r, c]) = String.mk [Char.ofNat (r.toNat - 1), c]
        ∧ (getCell board (String.mk [Char.ofNat (r.toNat - 1), c]) ≠ none →
            can_move_forward board (String.mk [r, c])
              = (false, "Target cell is occupied"))
        ∧ (getCell board (String.mk [Char.ofNat (r.toNat - 1), c]) = none →
            can_move_forward board (String.mk [r, c])
              = (true, String.mk [Char.ofNat (r.toNat - 1), c]))) := by
  refine ⟨?_, ?_, ?_⟩
  · by_cases hg : getCell board (String.mk [r, c]) = none
    · simp [can_move_forward, hg]
    · constructor
      · intro hcm
        rw [can_move_forward, if_neg hg] at hcm
        rcases hr with rfl | hr23
        · rw [get_front_cell_row1 c hc] at hcm
          simp at hcm
        · rw [get_front_cell_row23 r c hr23 hc] at hcm
          rw [if_neg (front_cell_ne_public r c hr23 hc)] at hcm
          by_cases hf : getCell board (String.mk [Char.ofNat (r.toNat - 1), c]) = none
          · rw [if_neg (by simpa using hf)] at hcm
            simp at hcm
          · rw [if_pos (by simpa using hf)] at hcm
            simp at hcm
      · intro hcm
        exact absurd hcm hg
  · intro hg hr1
    subst hr1
    rw [can_move_forward, if_neg hg, get_front_cell_row1 c hc, if_pos rfl]
  · intro hg hr23
    refine ⟨get_front_cell_row23 r c hr23 hc, ?_, ?_⟩
    · intro hf
      rw [can_move_forward, if_neg hg, get_front_cell_row23 r c hr23 hc,
        if_neg (front_cell_ne_public r c hr23 hc), if_pos (by simpa using hf)]
    · intro hf
      rw [can_move_forward, if_neg hg, get_front_cell_row23 r c hr23 hc,
        if_neg (front_cell_ne_public r c hr23 hc), if_neg (by simpa using hf)]

/-- Witness for C8 on the board `{"2A": 5}` at cell `2A`. -/
theorem can_move_forward_spec_witness :
    ((can_move_forward [("2A", some 5)] (String.mk ['2', 'A'])
        = (false, "No piece at this position")
      ↔ getCell [("2A", some 5)] (String.mk ['2', 'A']) = none)
    ∧ (getCell [("2A", some 5)] (String.mk ['2', 'A']) ≠ none → '2' = '1' →
        can_move_forward [("2A", some 5)] (String.mk ['2', 'A']) = (true, "public"))
    ∧ (getCell [("2A", some 5)] (String.mk ['2', 'A']) ≠ none → ('2' = '2' ∨ '2' = '3') →
        get_front_cell (String.mk ['2', 'A']) = String.mk [Char.ofNat ('2'.toNat - 1), 'A']
        ∧ (getCell [("2A", some 5)] (String.mk [Char.ofNat ('2'.toNat - 1), 'A']) ≠ none →
            can_move_forward [("2A", some 5)] (String.mk ['2', 'A'])
              = (false, "Target cell is occupied"))
        ∧ (getCell [("2A", some 5)] (String.mk [Char.ofNat ('2'.toNat - 1), 'A']) = none →
            can_move_forward [("2A", some 5)] (String.mk ['2', 'A'])
              = (true, String.mk [Char.ofNat ('2'.toNat - 1), 'A'])))) :=
  can_move_forward_spec [("2A", some 5)] '2' 'A' (by decide) (by decide)

/-- C9: the redacted board view (`reveal_all = False`) depends only on the
per-cell occupancy pattern: two boards with the same cells and the same
occupancy produce identical summaries, whatever digits occupy the cells. -/
theorem get_board_summary_occupancy_only (b1 b2 : Board)
    (h : b1.map (fun e => (e.1, e.2.isSome)) = b2.map (fun e => (e.1, e.2.isSome))) :
    get_board_summary b1 false = get_board_summary b2 false := by
  unfold get_board_summary
  simp only [Bool.false_eq_true, if_false]
  induction b1 generalizing b2 with
  | nil =>
    cases b2 with
    | nil => rfl
    | cons y ys => simp at h
  | cons x xs ih =>
    cases b2 with
    | nil => simp at h
    | cons y ys =>
      simp only [List.map_cons, List.cons.injEq, Prod.mk.injEq] at h ⊢
      obtain ⟨⟨h1, h2⟩, h3⟩ := h
      refine ⟨⟨h1, ?_⟩, ih ys h3⟩
      rcases hx : x.2 with _ | n <;> rcases hy : y.2 with _ | m <;>
        rw [hx, hy] at h2 <;> simp_all

/-- Witness for C9 on two one-cell boards holding different digits. -/
theorem get_board_summary_occupancy_only_witness :
    get_board_summary [("1A", some 3)] false = get_board_summary [("1A", some 7)] false :=
  get_board_summary_occupancy_only [("1A", some 3)] [("1A", some 7)] (by decide)

/-- The elimination write-back loop reads the stale snapshot each iteration:
a player eliminated twice in one settlement (digits 5 then 3) keeps only the
last appended number — the earlier database write is clobbered. -/
theorem applyEliminationsDb_stale_clobber :
    applyEliminationsDb [⟨1, [], []⟩] [⟨1, [], []⟩] [⟨5, 1⟩, ⟨3, 1⟩]
      = [⟨1, [], [3]⟩] := rfl

/-- The leftover write-back loop recomputes the first empty back-row cell
from the stale snapshot board: two leftover pieces of one owner are both
placed into cell `3A`, the second write clobbering the first, and the stale
(empty) eliminated list is written back. -/
theorem returnLeftoversDb_stale_clobber :
    returnLeftoversDb [⟨1, [("3A", none)], [7]⟩] [⟨1, [("3A", none)], [7, 5]⟩]
        [⟨2, 1⟩, ⟨1, 1⟩]
      = [⟨1, [("3A", some 1)], [7]⟩] := rfl
